import Mathlib

/-!
Verification of the Gumploop multi-agent pipeline orchestrator.

The TypeScript sources are shallowly embedded: pure logic becomes Lean
functions, filesystem and clock effects become explicit parameters
(file contents, capture streams, millisecond timestamps), and JSON values
are modelled by an explicit inductive type.  Millisecond timestamps are
integers; ISO-8601 timestamp strings are represented by their millisecond
value (the encoding is injective and strictly monotone).

The file is organised as definitions first (sections mirroring the source
modules), followed by the theorems.
-/

set_option maxRecDepth 40000

namespace Gumploop

/-! ### JavaScript string helpers

`jsIncludes s pat` models `s.includes(pat)` (substring containment);
`jsTrim` models `s.trim()` and `splitNl` models `s.split("\n")`, both
written on character lists so that they compute by kernel reduction. -/

def jsIncludes (s pat : String) : Bool :=
  decide (pat.toList <:+: s.toList)

def isJsWhitespace (c : Char) : Bool :=
  c = ' ' || c = '\n' || c = '\t' || c = '\r'

def jsTrimChars (cs : List Char) : List Char :=
  ((cs.dropWhile isJsWhitespace).reverse.dropWhile isJsWhitespace).reverse

def splitNl : List Char → List (List Char)
  | [] => [[]]
  | c :: rest =>
    match splitNl rest with
    | [] => [[c]]
    | hd :: tl => if c = '\n' then [] :: hd :: tl else (c :: hd) :: tl

/-! ### Approval oracles

From `phases/planning.ts` (lines 688-689) and `phases/discovery.ts`
(lines 417-418): a reviewer artifact is approved iff it contains
"APPROVED" and does not contain "NEEDS_REVISION".

From `phases/coding.ts` (line 100): the code review is approved iff it
contains "CODE_APPROVED" and does not contain "NEEDS_REVISION". -/

def approvalOracle (review : String) : Bool :=
  jsIncludes review "APPROVED" && !jsIncludes review "NEEDS_REVISION"

def codingApproval (codeReview : String) : Bool :=
  jsIncludes codeReview "CODE_APPROVED" && !jsIncludes codeReview "NEEDS_REVISION"

/-- Modelled from the spec: the claimed single approval oracle, "a document
is approved iff it contains an APPROVED marker and does not contain a
NEEDS_REVISION marker". Used to compare the spec's words against the
per-phase oracles found in the source. -/
def specClaimedOracle (text : String) : Bool :=
  jsIncludes text "APPROVED" && !jsIncludes text "NEEDS_REVISION"

/-! ### Two-reviewer consensus check

From `phases/discovery.ts` lines 414-423 (identically `phases/planning.ts`
lines 681-695): each reviewer's artifact file is read if it exists (missing
file reads as the empty string), each is fed to the approval oracle, and
consensus is the conjunction of the two individual verdicts. -/

def readArtifact (file : Option String) : String :=
  file.getD ""

def consensusCheck (geminiReview codexReview : Option String) : Bool :=
  approvalOracle (readArtifact geminiReview) && approvalOracle (readArtifact codexReview)

/-! ### JSON values

`JValue` models the values produced by `JSON.parse`. `safeJsonParse`
(state.ts lines 11-17) is modelled as a function `String → Option JValue`
supplied by the environment: `none` is a parse failure (the caught
exception), `some v` the parsed value. `getField v k` models the JS
property access `v[k]` (`none` = `undefined`); JS property access on
non-objects used by this code yields `undefined`. -/

inductive JValue where
  | null
  | bool (b : Bool)
  | num (n : ℤ)
  | str (s : String)
  | arr (elems : List JValue)
  | obj (fields : List (String × JValue))

def lookupField : List (String × JValue) → String → Option JValue
  | [], _ => none
  | (k, v) :: rest, key => if k = key then some v else lookupField rest key

def getField : JValue → String → Option JValue
  | .obj fields, key => lookupField fields key
  | _, _ => none

/-- JS truthiness of a parsed JSON value (`NaN` cannot be produced by
`JSON.parse`, so numbers are falsy exactly when zero). -/
def jsTruthy : JValue → Bool
  | .null => false
  | .bool b => b
  | .num n => n != 0
  | .str s => s != ""
  | .arr _ => true
  | .obj _ => true

def fieldIsStrEq (f : Option JValue) (s : String) : Bool :=
  match f with
  | some (.str t) => t = s
  | _ => false

def fieldIsNumEq (f : Option JValue) (n : ℤ) : Bool :=
  match f with
  | some (.num m) => m = n
  | _ => false

/-! ### Progress event lookup

From `mcp-server.ts`, `TmuxAgent.waitForProgressEvent` lines 407-418: the
file content is trimmed, split on newlines, blank lines are discarded, each
remaining line is parsed with `safeJsonParse`, lines that fail to parse are
skipped, and the poll succeeds when some parsed line matches the queried
(agent, action, iteration) tuple under strict equality. -/

def eventMatches (v : JValue) (agent action : String) (iteration : ℤ) : Bool :=
  jsTruthy v &&
  fieldIsStrEq (getField v "agent") agent &&
  fieldIsStrEq (getField v "action") action &&
  fieldIsNumEq (getField v "iteration") iteration

def progressLines (content : String) : List String :=
  ((splitNl (jsTrimChars content.toList)).map String.mk).filter
    (fun l => jsTrimChars l.toList != [])

def checkProgressLines (parse : String → Option JValue)
    (lines : List String) (agent action : String) (iteration : ℤ) : Bool :=
  lines.any (fun line =>
    match parse line with
    | some v => eventMatches v agent action iteration
    | none => false)

def hasProgressEvent (parse : String → Option JValue)
    (content : String) (agent action : String) (iteration : ℤ) : Bool :=
  checkProgressLines parse (progressLines content) agent action iteration

/-! Concrete test environment mirroring the spec's progress-log example:
three log lines, of which the middle one is malformed and the other two
parse to the claude plan-written and gemini review-written events. -/

def exampleLog : String :=
  "claude-line\nMALFORMED\ngemini-line"

def exampleParse (line : String) : Option JValue :=
  if line = "claude-line" then
    some (.obj [("agent", .str "claude"), ("action", .str "plan_written"),
      ("iteration", .num 1)])
  else if line = "gemini-line" then
    some (.obj [("agent", .str "gemini"), ("action", .str "review_written"),
      ("iteration", .num 1)])
  else none

/-! ### Pipeline state (state.ts, types.ts)

`PipelineState` mirrors the interface in types.ts. `lastUpdate` holds the
millisecond timestamp represented by the ISO-8601 string the source stores
(`new Date().toISOString()` is injective and strictly monotone in the
millisecond clock). Reading a state file is modelled by an
`Option (Option JValue)`: `none` = file absent (or unreadable),
`some none` = file exists but `safeJsonParse` fails, `some (some v)` = file
parses to `v`. -/

def DEFAULT_PROJECT_DIR : String := "/tmp/collab-mcp/project"

structure PipelineState where
  currentPhase : Option String
  task : String
  workDir : String
  iteration : ℤ
  discoveryComplete : Bool
  selectedFeature : Option String
  planningComplete : Bool
  codingComplete : Bool
  testingComplete : Bool
  debuggingComplete : Bool
  activeSessions : List String
  lastUpdate : ℤ
deriving Repr, DecidableEq

/-! Field classifiers used by the `isValidState` type guard
(state.ts lines 20-36). `none` corresponds to the JS `undefined`. -/

def fieldIsNullOrString (f : Option JValue) : Bool :=
  match f with
  | some .null => true
  | some (.str _) => true
  | _ => false

def fieldIsString (f : Option JValue) : Bool :=
  match f with
  | some (.str _) => true
  | _ => false

def fieldIsNumber (f : Option JValue) : Bool :=
  match f with
  | some (.num _) => true
  | _ => false

def fieldIsBoolean (f : Option JValue) : Bool :=
  match f with
  | some (.bool _) => true
  | _ => false

def fieldIsUndefOrBoolean (f : Option JValue) : Bool :=
  match f with
  | none => true
  | some (.bool _) => true
  | _ => false

def fieldIsUndefNullOrString (f : Option JValue) : Bool :=
  match f with
  | none => true
  | some .null => true
  | some (.str _) => true
  | _ => false

def fieldIsArray (f : Option JValue) : Bool :=
  match f with
  | some (.arr _) => true
  | _ => false

/-- JS `!obj || typeof obj !== "object"` rejection: `typeof` is "object"
precisely for objects, arrays and null, and `!obj` additionally rejects
null. -/
def isObjectLike (v : JValue) : Bool :=
  match v with
  | .obj _ => true
  | .arr _ => true
  | _ => false

/-- The type guard `isValidState` from state.ts lines 20-36. -/
def isValidState (v : JValue) : Bool :=
  isObjectLike v &&
  fieldIsNullOrString (getField v "currentPhase") &&
  fieldIsString (getField v "task") &&
  fieldIsNumber (getField v "iteration") &&
  fieldIsUndefOrBoolean (getField v "discoveryComplete") &&
  fieldIsUndefNullOrString (getField v "selectedFeature") &&
  fieldIsBoolean (getField v "planningComplete") &&
  fieldIsBoolean (getField v "codingComplete") &&
  fieldIsBoolean (getField v "testingComplete") &&
  fieldIsBoolean (getField v "debuggingComplete") &&
  fieldIsArray (getField v "activeSessions")

/-- `defaultState` from state.ts lines 39-54, with `now` the millisecond
clock value stamped into `lastUpdate`. -/
def defaultState (now : ℤ) : PipelineState where
  currentPhase := none
  task := ""
  workDir := DEFAULT_PROJECT_DIR
  iteration := 0
  discoveryComplete := false
  selectedFeature := none
  planningComplete := false
  codingComplete := false
  testingComplete := false
  debuggingComplete := false
  activeSessions := []
  lastUpdate := now

def strField (f : Option JValue) : Option String :=
  match f with
  | some (.str s) => some s
  | _ => none

def numField (f : Option JValue) : Option ℤ :=
  match f with
  | some (.num n) => some n
  | _ => none

def boolField (f : Option JValue) : Option Bool :=
  match f with
  | some (.bool b) => some b
  | _ => none

def strElem (v : JValue) : Option String :=
  match v with
  | .str s => some s
  | _ => none

def arrStrField (f : Option JValue) : List String :=
  match f with
  | some (.arr es) => es.filterMap strElem
  | _ => []

/-- Lean view of the unchecked cast `state as PipelineState` applied to a
parsed JSON value: fields are read off the object (string projections; the
guard `isValidState` ensures the checked fields are present with the right
types, remaining mismatches collapse to the JS-falsy defaults). -/
def castState (v : JValue) : PipelineState where
  currentPhase := strField (getField v "currentPhase")
  task := (strField (getField v "task")).getD ""
  workDir := (strField (getField v "workDir")).getD ""
  iteration := (numField (getField v "iteration")).getD 0
  discoveryComplete := (boolField (getField v "discoveryComplete")).getD false
  selectedFeature := strField (getField v "selectedFeature")
  planningComplete := (boolField (getField v "planningComplete")).getD false
  codingComplete := (boolField (getField v "codingComplete")).getD false
  testingComplete := (boolField (getField v "testingComplete")).getD false
  debuggingComplete := (boolField (getField v "debuggingComplete")).getD false
  activeSessions := arrStrField (getField v "activeSessions")
  lastUpdate := (numField (getField v "lastUpdate")).getD 0

/-- The spread `{ ...state, workDir: state.workDir || fallback }` used on
both load branches (state.ts lines 74 and 88): an empty (JS-falsy) workDir
field is replaced by the fallback. -/
def overrideWorkDir (st : PipelineState) (fallback : String) : PipelineState :=
  { st with workDir := if st.workDir != "" then st.workDir else fallback }

/-- JS truthiness of the optional `workDir` argument of `loadState`. -/
def strArgTruthy (arg : Option String) : Bool :=
  match arg with
  | some s => s != ""
  | none => false

/-- Result of a validated read of one state file: the parsed value if the
file exists, parses, and passes the type guard. -/
def validRead (file : Option (Option JValue)) : Option JValue :=
  match file with
  | some (some v) => if isValidState v then some v else none
  | _ => none

/-- `loadState` from state.ts lines 65-97. `workDirArg` is the optional
`workDir` parameter, `projectFile` the content of the project-scoped state
file, `globalFile` the content of the global fallback file, and `now` the
clock used by `defaultState`'s `new Date()`. -/
def loadState (workDirArg : Option String)
    (projectFile globalFile : Option (Option JValue)) (now : ℤ) : PipelineState :=
  let projectAttempt : Option PipelineState :=
    if strArgTruthy workDirArg then
      match validRead projectFile with
      | some v => some (overrideWorkDir (castState v) (workDirArg.getD ""))
      | none => none
    else none
  match projectAttempt with
  | some st => st
  | none =>
    match validRead globalFile with
    | some v => overrideWorkDir (castState v) DEFAULT_PROJECT_DIR
    | none => defaultState now

/-- Serialization `JSON.stringify(state)` of a well-typed `PipelineState`
(field order as written by the source's object literal). -/
def stateToJson (st : PipelineState) : JValue :=
  .obj [
    ("currentPhase", match st.currentPhase with | some p => .str p | none => .null),
    ("task", .str st.task),
    ("workDir", .str st.workDir),
    ("iteration", .num st.iteration),
    ("discoveryComplete", .bool st.discoveryComplete),
    ("selectedFeature", match st.selectedFeature with | some f => .str f | none => .null),
    ("planningComplete", .bool st.planningComplete),
    ("codingComplete", .bool st.codingComplete),
    ("testingComplete", .bool st.testingComplete),
    ("debuggingComplete", .bool st.debuggingComplete),
    ("activeSessions", .arr (st.activeSessions.map .str)),
    ("lastUpdate", .num st.lastUpdate)]

/-- Effect record of `saveState` (state.ts lines 100-112): the re-stamped
state, plus the identical serialized JSON written to the project-scoped
state file and to the global fallback file. -/
structure SaveResult where
  state : PipelineState
  projectWrite : JValue
  globalWrite : JValue

/-- `saveState` from state.ts lines 100-112: re-stamp `lastUpdate` with the
current clock, serialize once, write the same serialization to both
locations. -/
def saveState (st : PipelineState) (now : ℤ) : SaveResult :=
  let stamped := { st with lastUpdate := now }
  let json := stateToJson stamped
  ⟨stamped, json, json⟩

/-! ### Codex completion detection (completion.ts)

A transcript file in the day directory is a path plus its stat mtime in
milliseconds (files whose `stat` fails are dropped by the source before
sorting and are therefore omitted from the model). -/

structure SFile where
  path : String
  mtime : ℤ
deriving Repr, DecidableEq

def jsEndsWith (s suffix : String) : Bool :=
  decide (suffix.toList <:+ s.toList)

/-- The descending-mtime comparator `(a, b) => b.mtime - a.mtime` used with
the (stable) JS `Array.sort`. -/
def mtimeGe (a b : SFile) : Prop :=
  b.mtime ≤ a.mtime

instance : DecidableRel mtimeGe := fun a b => Int.decLe b.mtime a.mtime

instance : IsTotal SFile mtimeGe := ⟨fun a b => le_total b.mtime a.mtime⟩

instance : IsTrans SFile mtimeGe := ⟨fun _ _ _ hab hbc => le_trans hbc hab⟩

/-- `findLatestCodexSession` from completion.ts lines 31-63: keep the
`.jsonl` files of the day directory, sort by mtime descending, return the
first file with mtime at or after `messageStartTime`, falling back to the
most recent file (`valid[0]?.path || null`) when none qualifies. -/
def findLatestCodexSession (files : List SFile) (messageStartTime : ℤ) : Option String :=
  let jsonlFiles := files.filter (fun f => jsEndsWith f.path ".jsonl")
  let valid := List.insertionSort mtimeGe jsonlFiles
  match valid.find? (fun f => decide (messageStartTime ≤ f.mtime)) with
  | some f => some f.path
  | none => valid.head?.map SFile.path

/-- `str.replace(pat, repl)` with a string pattern: replace the first
occurrence only. -/
def replaceFirstL (pat repl : List Char) : List Char → List Char
  | [] => []
  | c :: rest =>
    if pat.isPrefixOf (c :: rest) then repl ++ (c :: rest).drop pat.length
    else c :: replaceFirstL pat repl rest

/-- `currentRequestId.replace("RQ-", "ANS-")` (completion.ts line 93). -/
def ansOf (requestId : String) : String :=
  String.mk (replaceFirstL "RQ-".toList "ANS-".toList requestId.toList)

/-- The acknowledgment token `[${ansId}]` looked for in agent messages. -/
def ansToken (requestId : String) : String :=
  "[" ++ ansOf requestId ++ "]"

structure CodexPayload where
  type : String
  message : Option String
deriving Repr, DecidableEq

/-- One parsed line of a Codex session file. `timestamp` is the millisecond
value of the event's ISO timestamp string. -/
structure CodexEvent where
  timestamp : ℤ
  type : String
  payload : Option CodexPayload
deriving Repr, DecidableEq

def payloadIsAgentMessage (p : Option CodexPayload) : Bool :=
  match p with
  | some payload => payload.type = "agent_message"
  | none => false

/-- The reverse scan of `checkCodexCompletion` (completion.ts lines 83-96)
over an already-reversed list of parsed lines: skip unparsable lines, skip
events older than `messageStartTime`, and report completion on an
`event_msg`/`agent_message` event whose message contains the token. -/
def codexScan (messageStartTime : ℤ) (token : String) :
    List (Option CodexEvent) → Bool
  | [] => false
  | none :: rest => codexScan messageStartTime token rest
  | some e :: rest =>
    if e.timestamp < messageStartTime then codexScan messageStartTime token rest
    else if e.type = "event_msg" && payloadIsAgentMessage e.payload then
      let msg := (e.payload.bind CodexPayload.message).getD ""
      if jsIncludes msg token then true else codexScan messageStartTime token rest
    else codexScan messageStartTime token rest

/-- `checkCodexCompletion` from completion.ts lines 68-99, over the parsed
lines of the session file in file order. -/
def checkCodexCompletion (lines : List (Option CodexEvent))
    (messageStartTime : ℤ) (currentRequestId : String) : Bool :=
  codexScan messageStartTime (ansToken currentRequestId) lines.reverse

/-! ### Adaptive wait loop (constants.ts, completion.ts, mcp-server.ts)

The four wait loops — `TmuxAgent.waitForProgressEvent` (mcp-server.ts
lines 398-440), `waitForCodexCompletion` (completion.ts lines 104-143),
`waitForGeminiCompletion` (lines 195-231) and `waitForClaudeCompletion`
(lines 299-358) — share one poll-loop shape differing only in the
kind-specific completion probe.  It is embedded once, with the probe and
the pane captures abstracted into an environment indexed by time: all time
is in milliseconds, each poll cycle advances the clock by
`ACTIVITY_CHECK_INTERVAL` (the `Bun.sleep`), `pane t = none` models a
capture that throws (the catch skips the activity/extension block), and
`complete t` is the completion probe's verdict on that cycle.  `extCount`
is a ghost counter of the extensions taken. -/

def TIMEOUT_BASE : ℤ := 30 * 60 * 1000

def TIMEOUT_EXTENSION : ℤ := 15 * 60 * 1000

def ACTIVITY_CHECK_INTERVAL : ℤ := 2000

def ACTIVITY_THRESHOLD : ℤ := 60 * 1000

structure WaitEnv where
  pane : ℤ → Option String
  complete : ℤ → Bool

structure WaitState where
  now : ℤ
  deadline : ℤ
  lastActivity : ℤ
  lastPane : String
  extCount : ℕ
deriving Repr, DecidableEq

/-- The activity/extension block of one poll cycle: re-capture the pane,
reset the activity timestamp on any difference, and push the deadline
forward by `TIMEOUT_EXTENSION` when the deadline is near and activity is
recent. -/
def activityStep (env : WaitEnv) (st : WaitState) : WaitState :=
  match env.pane st.now with
  | none => st
  | some pane =>
    let changed := pane != st.lastPane
    let lastPane := if changed then pane else st.lastPane
    let lastActivity := if changed then st.now else st.lastActivity
    if st.deadline - st.now < TIMEOUT_EXTENSION ∧
        st.now - lastActivity < ACTIVITY_THRESHOLD then
      { st with
          lastPane := lastPane
          lastActivity := lastActivity
          deadline := st.now + TIMEOUT_EXTENSION
          extCount := st.extCount + 1 }
    else
      { st with lastPane := lastPane, lastActivity := lastActivity }

inductive WaitResult where
  | completed (t : ℤ)
  | timedOut (t : ℤ)
  | running (st : WaitState)
deriving Repr, DecidableEq

/-- The wait loop, fuelled: while the clock is before the deadline, sleep
one poll interval, return on completion, otherwise run the activity block;
on loop exit raise the timeout (here: return `timedOut` with the raise
time). -/
def runWait (env : WaitEnv) : ℕ → WaitState → WaitResult
  | 0, st => .running st
  | n + 1, st =>
    if st.deadline ≤ st.now then .timedOut st.now
    else
      let t := st.now + ACTIVITY_CHECK_INTERVAL
      if env.complete t then .completed t
      else runWait env n (activityStep env { st with now := t })

/-- Loop entry: deadline is the base timeout from the start instant. -/
def initWait (start : ℤ) : WaitState :=
  ⟨start, start + TIMEOUT_BASE, start, "", 0⟩

/-- Simulated continuously-active agent: the captured pane alternates every
poll cycle and the completion probe never fires. -/
def activeSimEnv : WaitEnv where
  pane := fun t => some (if t % 4000 < 2000 then "A" else "B")
  complete := fun _ => false

/-- Simulated silent agent: constant captured pane, no completion. -/
def silentEnv (s : String) : WaitEnv where
  pane := fun _ => some s
  complete := fun _ => false

/-! ### Correlation token generation (constants.ts)

`generateRequestId()` returns the template string
`RQ-${Date.now()}-${Math.random().toString(36).slice(2, 6)}`.  The clock
value and the random suffix are environment inputs: the clock is the
millisecond timestamp rendered in decimal, the suffix the (up to four)
base-36 characters drawn from `Math.random()`. -/

def decDigitChar (d : ℕ) : Char :=
  if d = 0 then '0' else if d = 1 then '1' else if d = 2 then '2'
  else if d = 3 then '3' else if d = 4 then '4' else if d = 5 then '5'
  else if d = 6 then '6' else if d = 7 then '7' else if d = 8 then '8'
  else if d = 9 then '9' else '?'

/-- Decimal rendering of a natural number (the `${Date.now()}` template
interpolation). -/
def natDecimal (n : ℕ) : List Char :=
  if n = 0 then ['0'] else (Nat.digits 10 n).reverse.map decDigitChar

def requestIdChars (t : ℕ) (suffix : List Char) : List Char :=
  'R' :: 'Q' :: '-' :: (natDecimal t ++ '-' :: suffix)

/-- `generateRequestId` from constants.ts lines 166-168 as a function of
its clock and randomness inputs. -/
def generateRequestId (t : ℕ) (suffix : List Char) : String :=
  String.mk (requestIdChars t suffix)

/-- A session's sequence of generated tokens, indexed by invocation
number, under given clock and randomness streams. -/
def tokenSeq (clock : ℕ → ℕ) (rand : ℕ → List Char) (i : ℕ) : String :=
  generateRequestId (clock i) (rand i)

/-! ### Working-directory validation (workdir.ts, constants.ts)

The filesystem is abstracted to an existence predicate, and `path.resolve`
is modelled for POSIX paths: split on `/`, resolve relative paths against
the current working directory (assumed absolute), and normalize `.`/`..`/
empty segments with a stack. -/

def FORBIDDEN_PATHS : List String :=
  ["/", "/etc", "/usr", "/bin", "/sbin", "/root", "/boot", "/sys", "/proc"]

def splitSlash : List Char → List (List Char)
  | [] => [[]]
  | c :: rest =>
    match splitSlash rest with
    | [] => [[c]]
    | hd :: tl => if c = '/' then [] :: hd :: tl else (c :: hd) :: tl

/-- `workDir.split(sep)` for the POSIX separator. -/
def pathSegs (p : String) : List String :=
  (splitSlash p.toList).map String.mk

/-- POSIX `path.isAbsolute`. -/
def isAbsolutePath (p : String) : Bool :=
  p.toList.head? == some '/'

def normSegsAux : List String → List String → List String
  | stack, [] => stack.reverse
  | stack, seg :: rest =>
    if seg = "" || seg = "." then normSegsAux stack rest
    else if seg = ".." then normSegsAux stack.tail rest
    else normSegsAux (seg :: stack) rest

def joinSlash : List String → String
  | [] => ""
  | [s] => s
  | s :: rest => s ++ "/" ++ joinSlash rest

/-- POSIX `path.resolve(p)` with current working directory `cwd`. -/
def resolvePath (cwd p : String) : String :=
  let segs := if isAbsolutePath p then pathSegs p else pathSegs cwd ++ pathSegs p
  "/" ++ joinSlash (normSegsAux [] segs)

inductive WorkDirCheck where
  | ok (resolved : String)
  | err (reason : String)
deriving Repr, DecidableEq

/-- `validateWorkDir` from workdir.ts lines 484-515: reject `..` segments
before resolution, resolve, reject non-absolute results (unreachable after
`resolve`), reject paths that do not exist, reject exact matches of the
deny-list, otherwise accept with the resolved path. -/
def validateWorkDir (pathExists : String → Bool) (cwd workDir : String) : WorkDirCheck :=
  if (pathSegs workDir).contains ".." then .err "Path traversal detected"
  else
    let resolved := resolvePath cwd workDir
    if !isAbsolutePath resolved then .err "Path must be absolute"
    else if !pathExists resolved then .err "Directory does not exist"
    else if FORBIDDEN_PATHS.contains resolved then .err "Cannot use system directory"
    else .ok resolved

/-- `getProjectDir` from workdir.ts lines 521-541: for a JS-truthy argument,
first create the resolved directory (modelled as successful, extending the
existence predicate), then validate; fall back to the default project
directory on any rejection or when no argument is given. -/
def getProjectDir (pathExists : String → Bool) (cwd : String)
    (workDir : Option String) : String :=
  match workDir with
  | none => DEFAULT_PROJECT_DIR
  | some w =>
    if w = "" then DEFAULT_PROJECT_DIR
    else
      match validateWorkDir (fun p => pathExists p || p == resolvePath cwd w) cwd w with
      | .ok resolved => resolved
      | .err _ => DEFAULT_PROJECT_DIR

/-! ### Debugging phase executor (testing.ts)

`executeDebugging` is embedded as a trace semantics: the environment says,
per iteration, whether the analyzer wait throws, whether the fixer wait
throws, and whether the re-test passes; the result records the
session-lifecycle events that occurred, the final `activeSessions` and
`currentPhase` fields, and whether the error was re-raised.  The nested
`executeTesting` call of step 3 stops its own tester session on both of its
exit paths and is abstracted into the `testPasses` verdict. -/

inductive SessionEv where
  | started (session : String) (iteration : ℕ)
  | stopped (session : String) (iteration : ℕ)
deriving Repr, DecidableEq

structure DebugEnv where
  analyzerWaitThrows : ℕ → Bool
  fixerWaitThrows : ℕ → Bool
  testPasses : ℕ → Bool

structure DebugTrace where
  events : List SessionEv
  activeSessions : List String

structure DebugResult where
  events : List SessionEv
  activeSessions : List String
  currentPhase : Option String
  errored : Bool
  success : Bool
deriving Repr, DecidableEq

/-- One debug iteration (testing.ts lines 121-184): start the analyzer and
record it in `state.activeSessions`, wait (which may throw), stop it; then
the same for the fixer; then re-test.  `none` models an exception
propagating out of the iteration. -/
def debugIter (env : DebugEnv) (i : ℕ) (tr : DebugTrace) : DebugTrace × Option Bool :=
  let tr1 : DebugTrace := ⟨tr.events ++ [.started "analyzer" i], ["analyzer"]⟩
  if env.analyzerWaitThrows i then (tr1, none)
  else
    let tr2 : DebugTrace := ⟨tr1.events ++ [.stopped "analyzer" i], tr1.activeSessions⟩
    let tr3 : DebugTrace := ⟨tr2.events ++ [.started "fixer" i], ["fixer"]⟩
    if env.fixerWaitThrows i then (tr3, none)
    else
      let tr4 : DebugTrace := ⟨tr3.events ++ [.stopped "fixer" i], tr3.activeSessions⟩
      (tr4, some (env.testPasses i))

def debugLoop (env : DebugEnv) : ℕ → ℕ → DebugTrace → DebugTrace × Option Bool
  | 0, _, tr => (tr, some false)
  | k + 1, i, tr =>
    match debugIter env (i + 1) tr with
    | (tr', none) => (tr', none)
    | (tr', some fixed) =>
      if fixed then (tr', some true) else debugLoop env k (i + 1) tr'

/-- `executeDebugging` from testing.ts lines 100-199: prerequisite check,
iteration loop, and the catch block (lines 193-198) which clears
`state.activeSessions`, resets `currentPhase` to null and re-raises — the
loop-scoped analyzer/fixer agents are not stopped there. -/
def executeDebugging (env : DebugEnv) (maxIterations : ℕ)
    (st : PipelineState) : DebugResult :=
  if !st.codingComplete then
    ⟨[], st.activeSessions, st.currentPhase, false, false⟩
  else
    match debugLoop env maxIterations 0 ⟨[], []⟩ with
    | (tr, some fixed) => ⟨tr.events, [], some "debugging", false, fixed⟩
    | (tr, none) => ⟨tr.events, [], none, true, false⟩

end Gumploop

namespace Gumploop

/-! ## Theorems -/

/-! Helper lemmas about the state serialization. -/

theorem filterMap_strElem_comp (l : List String) :
    List.filterMap (strElem ∘ JValue.str) l = l := by
  induction l with
  | nil => rfl
  | cons a l ih => simp [strElem, Function.comp, ih]

theorem isValidState_stateToJson (st : PipelineState) :
    isValidState (stateToJson st) = true := by
  obtain ⟨cp, task, wd, it, dc, sf, pc, cc, tc, dbc, as0, lu⟩ := st
  cases cp <;> cases sf <;>
    simp [isValidState, stateToJson, getField, lookupField, isObjectLike,
      fieldIsNullOrString, fieldIsString, fieldIsNumber, fieldIsBoolean,
      fieldIsUndefOrBoolean, fieldIsUndefNullOrString, fieldIsArray]

theorem castState_stateToJson (st : PipelineState) :
    castState (stateToJson st) = st := by
  obtain ⟨cp, task, wd, it, dc, sf, pc, cc, tc, dbc, as0, lu⟩ := st
  cases cp <;> cases sf <;>
    simp [castState, stateToJson, getField, lookupField, strField, numField,
      boolField, arrStrField, filterMap_strElem_comp]

theorem loadState_project_valid (w : String) (proj glob : Option (Option JValue))
    (now : ℤ) (v : JValue) (hw : w ≠ "") (hp : proj = some (some v))
    (hv : isValidState v = true) :
    loadState (some w) proj glob now = overrideWorkDir (castState v) w := by
  subst hp
  simp [loadState, validRead, strArgTruthy, hw, hv]

/-- Claim C1, counterexample: the claim says the approval oracle approves any
text containing "APPROVED" without "NEEDS_REVISION", but the coding-phase
oracle cited in the claim (coding.ts line 100) rejects the text
"Status: APPROVED" because it lacks the "CODE_APPROVED" marker. -/
theorem C1_counterexample :
    specClaimedOracle "Status: APPROVED" = true ∧
    codingApproval "Status: APPROVED" = false := by
  decide

/-- Claim C1 (amended): the planning/discovery approval oracle approves a text
iff it contains "APPROVED" and not "NEEDS_REVISION"; the coding-phase oracle
instead requires "CODE_APPROVED" (still rejecting on "NEEDS_REVISION"); under
either oracle a text containing both markers is classified not-approved. -/
theorem C1_approval_oracles :
    (∀ s : String, approvalOracle s = true ↔
        ("APPROVED".toList <:+: s.toList ∧ ¬ ("NEEDS_REVISION".toList <:+: s.toList)))
  ∧ (∀ s : String, codingApproval s = true ↔
        ("CODE_APPROVED".toList <:+: s.toList ∧ ¬ ("NEEDS_REVISION".toList <:+: s.toList)))
  ∧ (∀ s : String, jsIncludes s "APPROVED" = true → jsIncludes s "NEEDS_REVISION" = true →
        approvalOracle s = false ∧ codingApproval s = false) := by
  refine ⟨fun s => ?_, fun s => ?_, fun s h1 h2 => ?_⟩
  · simp [approvalOracle, jsIncludes]
  · simp [codingApproval, jsIncludes]
  · constructor
    · simp [approvalOracle, h2]
    · simp [codingApproval, h2]

/-- Witness for C1_approval_oracles at concrete inputs: a review containing
only "APPROVED" is approved by the planning oracle, and a review containing
both markers is rejected by the coding oracle. -/
theorem C1_approval_oracles_witness :
    approvalOracle "Review ok. APPROVED" = true ∧
    codingApproval "CODE_APPROVED but also NEEDS_REVISION" = false := by
  refine ⟨?_, ?_⟩
  · exact (C1_approval_oracles.1 "Review ok. APPROVED").mpr (by decide)
  · exact (C1_approval_oracles.2.2 "CODE_APPROVED but also NEEDS_REVISION"
      (by decide) (by decide)).2

/-- Claim C2: in the two-reviewer consensus iterations of the planning and
discovery phases, consensus is reached iff both reviewer artifacts
individually satisfy the approval oracle; whenever exactly one of the two is
approved, the iteration reports non-consensus. -/
theorem C2_consensus_iff_both_approved :
    ∀ geminiReview codexReview : Option String,
      (consensusCheck geminiReview codexReview = true ↔
        (approvalOracle (readArtifact geminiReview) = true ∧
         approvalOracle (readArtifact codexReview) = true))
    ∧ (approvalOracle (readArtifact geminiReview) ≠ approvalOracle (readArtifact codexReview) →
        consensusCheck geminiReview codexReview = false) := by
  intro g c
  refine ⟨by simp [consensusCheck], fun hne => ?_⟩
  simp only [consensusCheck, Bool.and_eq_true, Bool.and_eq_false_iff]
  rcases hg : approvalOracle (readArtifact g) with _ | _ <;>
    rcases hc : approvalOracle (readArtifact c) with _ | _ <;>
      simp_all

/-- Witness for C2_consensus_iff_both_approved: one approved review and one
revision-requesting review yield non-consensus. -/
theorem C2_consensus_witness :
    consensusCheck (some "APPROVED") (some "NEEDS_REVISION") = false := by
  exact (C2_consensus_iff_both_approved (some "APPROVED") (some "NEEDS_REVISION")).2
    (by decide)

/-- Claim C6: the progress-event lookup splits the content into lines,
discards blank lines, skips unparsable lines without aborting the scan of
later lines, and succeeds iff some parsed line is an object whose agent,
action and iteration fields equal the queried tuple exactly. -/
theorem C6_progress_lookup :
    (∀ (parse : String → Option JValue) (content agent action : String) (iteration : ℤ),
      hasProgressEvent parse content agent action iteration = true ↔
        ∃ line ∈ progressLines content, ∃ v,
          parse line = some v ∧ eventMatches v agent action iteration = true)
  ∧ (∀ (parse : String → Option JValue) (pre post : List String)
        (bad agent action : String) (iteration : ℤ),
      parse bad = none →
        checkProgressLines parse (pre ++ bad :: post) agent action iteration =
        checkProgressLines parse (pre ++ post) agent action iteration) := by
  constructor
  · intro parse content agent action iteration
    simp only [hasProgressEvent, checkProgressLines, List.any_eq_true]
    constructor
    · rintro ⟨l, hl, hmatch⟩
      rcases hp : parse l with _ | v
      · rw [hp] at hmatch; exact absurd hmatch (by simp)
      · rw [hp] at hmatch; exact ⟨l, hl, v, hp, hmatch⟩
    · rintro ⟨l, hl, v, hp, hm⟩
      exact ⟨l, hl, by rw [hp]; exact hm⟩
  · intro parse pre post bad agent action iteration hbad
    simp only [checkProgressLines, List.any_append, List.any_cons, hbad, Bool.false_or]

/-- Witness for C6_progress_lookup, mirroring the spec's example: under a
parse oracle on which only the two well-formed lines parse, the lookup for
(claude, plan_written, 1) succeeds, the lookup for (codex, plan_written, 1)
fails, and the unparsable middle line does not abort the scan. -/
theorem C6_progress_lookup_witness :
    hasProgressEvent exampleParse exampleLog "claude" "plan_written" 1 = true ∧
    hasProgressEvent exampleParse exampleLog "codex" "plan_written" 1 = false ∧
    checkProgressLines exampleParse ["claude-line", "MALFORMED", "gemini-line"]
        "gemini" "review_written" 1 =
      checkProgressLines exampleParse ["claude-line", "gemini-line"]
        "gemini" "review_written" 1 := by
  refine ⟨?_, ?_, ?_⟩
  · exact (C6_progress_lookup.1 exampleParse exampleLog "claude" "plan_written" 1).mpr
      ⟨"claude-line", by decide, .obj [("agent", .str "claude"),
        ("action", .str "plan_written"), ("iteration", .num 1)], rfl, by decide⟩
  · decide
  · exact C6_progress_lookup.2 exampleParse ["claude-line"] ["gemini-line"]
      "MALFORMED" "gemini" "review_written" 1 rfl

theorem insertionSort_cons_max (l : List SFile) (h : SFile) (t : List SFile)
    (heq : List.insertionSort mtimeGe l = h :: t) :
    ∀ g ∈ l, g.mtime ≤ h.mtime := by
  intro g hg
  have hgmem : g ∈ h :: t := by
    rw [← heq]
    exact ((List.perm_insertionSort mtimeGe l).symm.mem_iff).mp hg
  have hs := List.sorted_insertionSort mtimeGe l
  rw [heq] at hs
  rcases List.mem_cons.mp hgmem with rfl | hgt
  · exact le_refl _
  · exact (List.sorted_cons.mp hs).1 g hgt

theorem codexScan_iff (start : ℤ) (tok : String) (ls : List (Option CodexEvent)) :
    codexScan start tok ls = true ↔
      ∃ e, some e ∈ ls ∧ start ≤ e.timestamp ∧ e.type = "event_msg" ∧
        payloadIsAgentMessage e.payload = true ∧
        jsIncludes ((e.payload.bind CodexPayload.message).getD "") tok = true := by
  induction ls with
  | nil => simp [codexScan]
  | cons hd rest ih =>
    cases hd with
    | none =>
      rw [codexScan, ih]
      constructor
      · rintro ⟨e, hm, he⟩
        exact ⟨e, List.mem_cons_of_mem _ hm, he⟩
      · rintro ⟨e, hm, he⟩
        rcases List.mem_cons.mp hm with heq | hm
        · exact absurd heq (by simp)
        · exact ⟨e, hm, he⟩
    | some e =>
      rw [codexScan]
      by_cases hts : e.timestamp < start
      · rw [if_pos hts, ih]
        constructor
        · rintro ⟨f, hm, hf⟩
          exact ⟨f, List.mem_cons_of_mem _ hm, hf⟩
        · rintro ⟨f, hm, h1, hf⟩
          rcases List.mem_cons.mp hm with heq | hm
          · obtain rfl : f = e := by simpa using heq
            omega
          · exact ⟨f, hm, h1, hf⟩
      · rw [if_neg hts]
        by_cases htype : (e.type = "event_msg" && payloadIsAgentMessage e.payload) = true
        · rw [if_pos htype]
          have hpair : e.type = "event_msg" ∧ payloadIsAgentMessage e.payload = true := by
            simpa [Bool.and_eq_true, decide_eq_true_eq] using htype
          by_cases htok :
              jsIncludes ((e.payload.bind CodexPayload.message).getD "") tok = true
          · rw [if_pos htok]
            constructor
            · intro _
              exact ⟨e, List.mem_cons_self _ _, by omega, hpair.1, hpair.2, htok⟩
            · intro _; rfl
          · rw [if_neg htok, ih]
            constructor
            · rintro ⟨f, hm, hf⟩
              exact ⟨f, List.mem_cons_of_mem _ hm, hf⟩
            · rintro ⟨f, hm, h1, h2, h3, h4⟩
              rcases List.mem_cons.mp hm with heq | hm
              · obtain rfl : f = e := by simpa using heq
                exact absurd h4 htok
              · exact ⟨f, hm, h1, h2, h3, h4⟩
        · rw [if_neg htype, ih]
          constructor
          · rintro ⟨f, hm, hf⟩
            exact ⟨f, List.mem_cons_of_mem _ hm, hf⟩
          · rintro ⟨f, hm, h1, h2, h3, h4⟩
            rcases List.mem_cons.mp hm with heq | hm
            · obtain rfl : f = e := by simpa using heq
              refine absurd ?_ htype
              simp [Bool.and_eq_true, decide_eq_true_eq, h2, h3]
            · exact ⟨f, hm, h1, h2, h3, h4⟩

theorem activityStep_deadline (env : WaitEnv) (st : WaitState) (p : String)
    (hp : env.pane st.now = some p) :
    ((st.deadline - st.now < TIMEOUT_EXTENSION ∧
        st.now - (activityStep env st).lastActivity < ACTIVITY_THRESHOLD) →
      (activityStep env st).deadline = st.now + TIMEOUT_EXTENSION)
  ∧ (¬ (st.deadline - st.now < TIMEOUT_EXTENSION ∧
        st.now - (activityStep env st).lastActivity < ACTIVITY_THRESHOLD) →
      (activityStep env st).deadline = st.deadline) := by
  simp only [activityStep, hp]
  by_cases hcond : st.deadline - st.now < TIMEOUT_EXTENSION ∧
      st.now - (if (p != st.lastPane) = true then st.now else st.lastActivity) <
        ACTIVITY_THRESHOLD
  · rw [if_pos hcond]
    exact ⟨fun _ => rfl, fun hn => absurd hcond hn⟩
  · rw [if_neg hcond]
    exact ⟨fun h => absurd h hcond, fun _ => rfl⟩

theorem runWait_succ_continue (env : WaitEnv) (n : ℕ) (st : WaitState)
    (h1 : ¬ st.deadline ≤ st.now)
    (h2 : env.complete (st.now + ACTIVITY_CHECK_INTERVAL) = false) :
    runWait env (n + 1) st =
      runWait env n (activityStep env { st with now := st.now + ACTIVITY_CHECK_INTERVAL }) := by
  rw [runWait, if_neg h1]
  simp only [h2, Bool.false_eq_true, if_false]

theorem runWait_active_no_timeout (env : WaitEnv) (f : ℤ → String)
    (hc : ∀ t, env.complete t = false) (hp : ∀ t, env.pane t = some (f t))
    (hf : ∀ t, f (t + ACTIVITY_CHECK_INTERVAL) ≠ f t) :
    ∀ (n : ℕ) (st : WaitState),
      TIMEOUT_EXTENSION ≤ st.deadline - st.now →
      st.lastPane ≠ f (st.now + ACTIVITY_CHECK_INTERVAL) →
      ∀ t, runWait env n st ≠ .timedOut t := by
  intro n
  induction n with
  | zero =>
    intro st _ _ t
    simp [runWait]
  | succ n ih =>
    intro st h1 h2 t
    have hext : (0 : ℤ) < TIMEOUT_EXTENSION := by norm_num [TIMEOUT_EXTENSION]
    rw [runWait_succ_continue env n st (by omega) (hc _)]
    set t1 := st.now + ACTIVITY_CHECK_INTERVAL with ht1
    have hchanged : (f t1 != st.lastPane) = true := by
      simp only [bne_iff_ne, ne_eq]
      exact fun hh => h2 (hh ▸ rfl)
    have hstep : activityStep env { st with now := t1 } =
        if st.deadline - t1 < TIMEOUT_EXTENSION ∧ (0 : ℤ) < ACTIVITY_THRESHOLD then
          ⟨t1, t1 + TIMEOUT_EXTENSION, t1, f t1, st.extCount + 1⟩
        else
          ⟨t1, st.deadline, t1, f t1, st.extCount⟩ := by
      simp only [activityStep, hp t1, hchanged, if_true]
      by_cases hcond : st.deadline - t1 < TIMEOUT_EXTENSION ∧
          t1 - t1 < ACTIVITY_THRESHOLD
      · rw [if_pos hcond, if_pos (by omega : st.deadline - t1 < TIMEOUT_EXTENSION ∧
          (0 : ℤ) < ACTIVITY_THRESHOLD)]
      · rw [if_neg hcond, if_neg (by omega :
          ¬ (st.deadline - t1 < TIMEOUT_EXTENSION ∧ (0 : ℤ) < ACTIVITY_THRESHOLD))]
    rw [hstep]
    have hthresh : (0 : ℤ) < ACTIVITY_THRESHOLD := by norm_num [ACTIVITY_THRESHOLD]
    by_cases hcond : st.deadline - t1 < TIMEOUT_EXTENSION ∧ (0 : ℤ) < ACTIVITY_THRESHOLD
    · rw [if_pos hcond]
      exact ih _ (by simp) (fun hh => hf t1 hh.symm) t
    · rw [if_neg hcond]
      have : ¬ (st.deadline - t1 < TIMEOUT_EXTENSION) := fun hh => hcond ⟨hh, hthresh⟩
      exact ih _ (by simp; omega) (fun hh => hf t1 hh.symm) t

theorem runWait_silent_timeout (env : WaitEnv) (s : String) (start : ℤ)
    (hp : ∀ t, env.pane t = some s) (hc : ∀ t, env.complete t = false) :
    ∀ (n k : ℕ) (la : ℤ) (lp : String) (c : ℕ),
      k ≤ 900 → 901 - k ≤ n →
      la ≤ start + ACTIVITY_CHECK_INTERVAL →
      (k = 0 → la = start ∧ lp = "") →
      (1 ≤ k → lp = s) →
      runWait env n
        ⟨start + k * ACTIVITY_CHECK_INTERVAL, start + TIMEOUT_BASE, la, lp, c⟩ =
      .timedOut (start + TIMEOUT_BASE) := by
  intro n
  induction n with
  | zero =>
    intro k la lp c hk hn _ _ _
    omega
  | succ n ih =>
    intro k la lp c hk hn hla h0 h1
    by_cases hk900 : k = 900
    · subst hk900
      rw [runWait, if_pos (by norm_num [ACTIVITY_CHECK_INTERVAL, TIMEOUT_BASE])]
      norm_num [ACTIVITY_CHECK_INTERVAL, TIMEOUT_BASE]
    · have hklt : k < 900 := by omega
      rw [runWait_succ_continue env n _ (by
        show ¬ (start + TIMEOUT_BASE ≤ start + (k : ℤ) * ACTIVITY_CHECK_INTERVAL)
        have : (k : ℤ) < 900 := by exact_mod_cast hklt
        norm_num [ACTIVITY_CHECK_INTERVAL, TIMEOUT_BASE]
        omega) (hc _)]
      set t1 := start + (k : ℤ) * ACTIVITY_CHECK_INTERVAL + ACTIVITY_CHECK_INTERVAL with ht1
      have ht1eq : t1 = start + (k + 1 : ℕ) * ACTIVITY_CHECK_INTERVAL := by
        push_cast
        ring
      have hACI : ACTIVITY_CHECK_INTERVAL = 2000 := rfl
      have hTB : TIMEOUT_BASE = 1800000 := rfl
      have hTE : TIMEOUT_EXTENSION = 900000 := rfl
      have hTH : ACTIVITY_THRESHOLD = 60000 := rfl
      have hstep : activityStep env
          ⟨t1, start + TIMEOUT_BASE, la, lp, c⟩ =
          ⟨t1, start + TIMEOUT_BASE,
            if (s != lp) = true then t1 else la,
            if (s != lp) = true then s else lp, c⟩ := by
        simp only [activityStep, hp t1]
        rw [if_neg]
        rintro ⟨hd, ha⟩
        by_cases hch : (s != lp) = true
        · have hk0 : k = 0 := by
            by_contra hne
            rw [h1 (by omega)] at hch
            simp at hch
          subst hk0
          rw [hTB, hTE] at hd
          rw [hACI] at ht1
          omega
        · rw [if_neg hch] at ha
          rw [hTB, hTE] at hd
          rw [hTH] at ha
          rw [hACI] at ht1 hla
          omega
      rw [hstep]
      rw [show (⟨t1, start + TIMEOUT_BASE,
            if (s != lp) = true then t1 else la,
            if (s != lp) = true then s else lp, c⟩ : WaitState) =
          ⟨start + (k + 1 : ℕ) * ACTIVITY_CHECK_INTERVAL, start + TIMEOUT_BASE,
            if (s != lp) = true then t1 else la,
            if (s != lp) = true then s else lp, c⟩ from by rw [← ht1eq]]
      apply ih (k + 1) _ _ c (by omega) (by omega)
      · by_cases hch : (s != lp) = true
        · rw [if_pos hch]
          have hk0 : k = 0 := by
            by_contra hne
            rw [h1 (by omega)] at hch
            simp at hch
          rw [ht1, hk0]
          norm_num
        · rw [if_neg hch]
          exact hla
      · omega
      · intro _
        by_cases hch : (s != lp) = true
        · rw [if_pos hch]
        · rw [if_neg hch]
          have hlps : s = lp := by simpa [bne_iff_ne] using hch
          exact hlps.symm

theorem runWait_chunk (env : WaitEnv) (n : ℕ) :
    ∀ (m : ℕ) (st st' : WaitState), runWait env m st = .running st' →
      runWait env (m + n) st = runWait env n st' := by
  intro m
  induction m with
  | zero =>
    intro st st' h
    rw [runWait] at h
    cases h
    rw [Nat.zero_add]
  | succ m ih =>
    intro st st' h
    rw [runWait] at h
    have hm : m + 1 + n = (m + n) + 1 := by omega
    rw [hm, runWait]
    by_cases hdl : st.deadline ≤ st.now
    · rw [if_pos hdl] at h
      cases h
    · rw [if_neg hdl] at h ⊢
      by_cases hcp : env.complete (st.now + ACTIVITY_CHECK_INTERVAL) = true
      · simp only [hcp, if_true] at h
        cases h
      · simp only [hcp, if_false] at h ⊢
        exact ih _ _ h

theorem altPane_ne_next (t : ℤ) :
    (if (t + ACTIVITY_CHECK_INTERVAL) % 4000 < 2000 then "A" else "B") ≠
      (if t % 4000 < 2000 then "A" else "B") := by
  have hACI : ACTIVITY_CHECK_INTERVAL = 2000 := rfl
  rw [hACI]
  split_ifs with h1 h2
  · exfalso; omega
  · decide
  · decide
  · exfalso; omega

theorem altPane_ne_empty (t : ℤ) :
    (if t % 4000 < 2000 then "A" else "B") ≠ "" := by
  split_ifs <;> decide

/-- Claim C4: in every adaptive wait loop (waitForProgressEvent and the
per-kind waitForCompletion loops), (1) a poll cycle whose pane capture
succeeds pushes the deadline to now + EXTENSION exactly when the remaining
time is below EXTENSION (15 min) and the captured output last changed
within ACTIVITY_THRESHOLD (60 s), and otherwise leaves it unchanged;
(2) while the output keeps changing every cycle and no completion arrives,
the wait never times out, however much fuel it is given; (3) the simulated
continuously-active wait survives at least ten extension cycles; and
(4) with constant output and no completion signal the wait raises its
timeout exactly at the base deadline, start + BASE (30 min). -/
theorem C4_adaptive_timeout :
    (∀ (env : WaitEnv) (st : WaitState) (p : String), env.pane st.now = some p →
      ((st.deadline - st.now < TIMEOUT_EXTENSION ∧
          st.now - (activityStep env st).lastActivity < ACTIVITY_THRESHOLD) →
        (activityStep env st).deadline = st.now + TIMEOUT_EXTENSION)
      ∧ (¬ (st.deadline - st.now < TIMEOUT_EXTENSION ∧
          st.now - (activityStep env st).lastActivity < ACTIVITY_THRESHOLD) →
        (activityStep env st).deadline = st.deadline))
  ∧ (∀ (env : WaitEnv) (f : ℤ → String) (start : ℤ),
      (∀ t, env.complete t = false) → (∀ t, env.pane t = some (f t)) →
      (∀ t, f (t + ACTIVITY_CHECK_INTERVAL) ≠ f t) → (∀ t, f t ≠ "") →
      ∀ (n : ℕ) (t : ℤ), runWait env n (initWait start) ≠ .timedOut t)
  ∧ (∃ st, runWait activeSimEnv 460 (initWait 0) = .running st ∧ 10 ≤ st.extCount)
  ∧ (∀ (env : WaitEnv) (s : String) (start : ℤ) (n : ℕ),
      (∀ t, env.pane t = some s) → (∀ t, env.complete t = false) → 901 ≤ n →
      runWait env n (initWait start) = .timedOut (start + TIMEOUT_BASE)) := by
  refine ⟨fun env st p hp => activityStep_deadline env st p hp,
    fun env f start hc hp hf hne n t => ?_, ?_, fun env s start n hp hc hn => ?_⟩
  · apply runWait_active_no_timeout env f hc hp hf n (initWait start)
    · show TIMEOUT_EXTENSION ≤ start + TIMEOUT_BASE - start
      norm_num [TIMEOUT_BASE, TIMEOUT_EXTENSION]
    · exact fun h => hne _ h.symm
  · refine ⟨⟨920000, 1820000, 920000, "A", 10⟩, ?_, by norm_num⟩
    have h1 : runWait activeSimEnv 100 (initWait 0) =
        .running ⟨200000, 1800000, 200000, "A", 0⟩ := by decide
    have h2 : runWait activeSimEnv 100 (⟨200000, 1800000, 200000, "A", 0⟩ : WaitState) =
        .running ⟨400000, 1800000, 400000, "A", 0⟩ := by decide
    have h3 : runWait activeSimEnv 100 (⟨400000, 1800000, 400000, "A", 0⟩ : WaitState) =
        .running ⟨600000, 1800000, 600000, "A", 0⟩ := by decide
    have h4 : runWait activeSimEnv 100 (⟨600000, 1800000, 600000, "A", 0⟩ : WaitState) =
        .running ⟨800000, 1800000, 800000, "A", 0⟩ := by decide
    have h5 : runWait activeSimEnv 60 (⟨800000, 1800000, 800000, "A", 0⟩ : WaitState) =
        .running ⟨920000, 1820000, 920000, "A", 10⟩ := by decide
    calc runWait activeSimEnv 460 (initWait 0)
        = runWait activeSimEnv 360 ⟨200000, 1800000, 200000, "A", 0⟩ :=
          runWait_chunk activeSimEnv 360 100 _ _ h1
      _ = runWait activeSimEnv 260 ⟨400000, 1800000, 400000, "A", 0⟩ :=
          runWait_chunk activeSimEnv 260 100 _ _ h2
      _ = runWait activeSimEnv 160 ⟨600000, 1800000, 600000, "A", 0⟩ :=
          runWait_chunk activeSimEnv 160 100 _ _ h3
      _ = runWait activeSimEnv 60 ⟨800000, 1800000, 800000, "A", 0⟩ :=
          runWait_chunk activeSimEnv 60 100 _ _ h4
      _ = .running ⟨920000, 1820000, 920000, "A", 10⟩ := h5
  · have h := runWait_silent_timeout env s start hp hc n 0 start "" 0
      (by norm_num) (by omega) (by norm_num [ACTIVITY_CHECK_INTERVAL])
      (fun _ => ⟨rfl, rfl⟩) (by omega)
    simpa [initWait] using h

/-- Witness for C4_adaptive_timeout at concrete inputs: a near-deadline
cycle with fresh activity extends the deadline by exactly 15 minutes, a
far-from-deadline cycle leaves it unchanged, the continuously-active
simulated wait is not timed out after 5 cycles, and the silent wait times
out exactly at the 30-minute base deadline. -/
theorem C4_adaptive_timeout_witness :
    (activityStep (silentEnv "x") ⟨1000000, 1800000, 995000, "", 0⟩).deadline = 1900000
  ∧ (activityStep (silentEnv "x") (initWait 0)).deadline = (initWait 0).deadline
  ∧ runWait activeSimEnv 5 (initWait 0) ≠ .timedOut 1800000
  ∧ runWait (silentEnv "idle") 901 (initWait 0) = .timedOut 1800000 := by
  refine ⟨?_, ?_, ?_, ?_⟩
  · exact (C4_adaptive_timeout.1 (silentEnv "x") ⟨1000000, 1800000, 995000, "", 0⟩
      "x" rfl).1 (by decide)
  · exact (C4_adaptive_timeout.1 (silentEnv "x") (initWait 0) "x" rfl).2 (by decide)
  · exact C4_adaptive_timeout.2.1 activeSimEnv
      (fun t => if t % 4000 < 2000 then "A" else "B") 0
      (fun _ => rfl) (fun _ => rfl) altPane_ne_next altPane_ne_empty 5 1800000
  · exact C4_adaptive_timeout.2.2.2 (silentEnv "idle") "idle" 0 901
      (fun _ => rfl) (fun _ => rfl) (by norm_num)

/-- Claim C3, counterexample: when no transcript file of the day has
modification time at or after `requestStartTime`, `findLatestCodexSession`
does not select nothing — it falls back to the most recently modified stale
file, contradicting the claim that only files with mtime at or after
`requestStartTime` are selected. -/
theorem C3_counterexample :
    findLatestCodexSession [⟨"a.jsonl", 5⟩] 10 = some "a.jsonl" ∧ ¬ ((10 : ℤ) ≤ 5) := by
  constructor
  · rfl
  · decide

/-- Claim C3 (amended): among that day's `.jsonl` transcript files, the
Codex completion check selects the most recently modified file whose mtime
is at or after `requestStartTime` when such a file exists, and otherwise
falls back to the most recently modified file regardless of its mtime; it
reports completion iff some parsed `event_msg`/`agent_message` event with
timestamp at or after `requestStartTime` contains the acknowledgment token
derived from the current request token — an event lacking the token, or
timestamped before `requestStartTime`, never counts. -/
theorem C3_codex_completion :
    (∀ (files : List SFile) (start : ℤ),
      (∃ f ∈ files, jsEndsWith f.path ".jsonl" = true ∧ start ≤ f.mtime) →
      ∃ f, findLatestCodexSession files start = some f.path ∧ f ∈ files ∧
        jsEndsWith f.path ".jsonl" = true ∧ start ≤ f.mtime ∧
        ∀ g ∈ files, jsEndsWith g.path ".jsonl" = true → g.mtime ≤ f.mtime)
  ∧ (∀ (files : List SFile) (start : ℤ),
      (∀ f ∈ files, jsEndsWith f.path ".jsonl" = true → f.mtime < start) →
      (∃ f ∈ files, jsEndsWith f.path ".jsonl" = true) →
      ∃ f, findLatestCodexSession files start = some f.path ∧ f ∈ files ∧
        jsEndsWith f.path ".jsonl" = true ∧
        ∀ g ∈ files, jsEndsWith g.path ".jsonl" = true → g.mtime ≤ f.mtime)
  ∧ (∀ (lines : List (Option CodexEvent)) (start : ℤ) (rid : String),
      checkCodexCompletion lines start rid = true ↔
        ∃ e, some e ∈ lines ∧ start ≤ e.timestamp ∧ e.type = "event_msg" ∧
          payloadIsAgentMessage e.payload = true ∧
          jsIncludes ((e.payload.bind CodexPayload.message).getD "")
            (ansToken rid) = true) := by
  refine ⟨?_, ?_, ?_⟩
  · rintro files start ⟨q, hqf, hqj, hqt⟩
    have hqjl : q ∈ files.filter (fun f => jsEndsWith f.path ".jsonl") :=
      List.mem_filter.mpr ⟨hqf, hqj⟩
    rcases hsr : List.insertionSort mtimeGe
        (files.filter (fun f => jsEndsWith f.path ".jsonl")) with _ | ⟨h, t⟩
    · have := ((List.perm_insertionSort mtimeGe _).symm.mem_iff).mp hqjl
      rw [hsr] at this
      exact absurd this (List.not_mem_nil q)
    · have hmax := insertionSort_cons_max _ h t hsr
      have hhmem : h ∈ files.filter (fun f => jsEndsWith f.path ".jsonl") := by
        have : h ∈ h :: t := List.mem_cons_self _ _
        rw [← hsr] at this
        exact ((List.perm_insertionSort mtimeGe _).mem_iff).mp this
      have hht : start ≤ h.mtime := le_trans hqt (hmax q hqjl)
      refine ⟨h, ?_, (List.mem_filter.mp hhmem).1, (List.mem_filter.mp hhmem).2, hht, ?_⟩
      · show (match (List.insertionSort mtimeGe
            (files.filter (fun f => jsEndsWith f.path ".jsonl"))).find?
              (fun f => decide (start ≤ f.mtime)) with
          | some f => some f.path
          | none => (List.insertionSort mtimeGe
              (files.filter (fun f => jsEndsWith f.path ".jsonl"))).head?.map SFile.path)
          = some h.path
        rw [hsr, List.find?_cons_of_pos _ (by simpa using hht)]
      · intro g hgf hgj
        exact hmax g (List.mem_filter.mpr ⟨hgf, hgj⟩)
  · rintro files start hstale ⟨q, hqf, hqj⟩
    have hqjl : q ∈ files.filter (fun f => jsEndsWith f.path ".jsonl") :=
      List.mem_filter.mpr ⟨hqf, hqj⟩
    rcases hsr : List.insertionSort mtimeGe
        (files.filter (fun f => jsEndsWith f.path ".jsonl")) with _ | ⟨h, t⟩
    · have := ((List.perm_insertionSort mtimeGe _).symm.mem_iff).mp hqjl
      rw [hsr] at this
      exact absurd this (List.not_mem_nil q)
    · have hmax := insertionSort_cons_max _ h t hsr
      have hhmem : h ∈ files.filter (fun f => jsEndsWith f.path ".jsonl") := by
        have : h ∈ h :: t := List.mem_cons_self _ _
        rw [← hsr] at this
        exact ((List.perm_insertionSort mtimeGe _).mem_iff).mp this
      have hnone : (List.insertionSort mtimeGe
          (files.filter (fun f => jsEndsWith f.path ".jsonl"))).find?
            (fun f => decide (start ≤ f.mtime)) = none := by
        rw [List.find?_eq_none]
        intro x hx
        have hxmem : x ∈ files.filter (fun f => jsEndsWith f.path ".jsonl") :=
          ((List.perm_insertionSort mtimeGe _).mem_iff).mp hx
        have := hstale x (List.mem_filter.mp hxmem).1 (List.mem_filter.mp hxmem).2
        simpa using (by omega : ¬ (start ≤ x.mtime))
      refine ⟨h, ?_, (List.mem_filter.mp hhmem).1, (List.mem_filter.mp hhmem).2, ?_⟩
      · show (match (List.insertionSort mtimeGe
            (files.filter (fun f => jsEndsWith f.path ".jsonl"))).find?
              (fun f => decide (start ≤ f.mtime)) with
          | some f => some f.path
          | none => (List.insertionSort mtimeGe
              (files.filter (fun f => jsEndsWith f.path ".jsonl"))).head?.map SFile.path)
          = some h.path
        rw [hnone, hsr]
        rfl
      · intro g hgf hgj
        exact hmax g (List.mem_filter.mpr ⟨hgf, hgj⟩)
  · intro lines start rid
    rw [checkCodexCompletion, codexScan_iff]
    constructor
    · rintro ⟨e, hm, he⟩
      exact ⟨e, List.mem_reverse.mp hm, he⟩
    · rintro ⟨e, hm, he⟩
      exact ⟨e, List.mem_reverse.mpr hm, he⟩

/-- Witness for C3_codex_completion: a single fresh transcript file is
selected, and a fresh agent-message event carrying the acknowledgment token
for request RQ-1-ab is detected as completion. -/
theorem C3_codex_completion_witness :
    (∃ f : SFile, findLatestCodexSession [⟨"b.jsonl", 20⟩] 10 = some f.path ∧
      f ∈ [(⟨"b.jsonl", 20⟩ : SFile)] ∧ jsEndsWith f.path ".jsonl" = true ∧
      (10 : ℤ) ≤ f.mtime ∧
      ∀ g ∈ [(⟨"b.jsonl", 20⟩ : SFile)], jsEndsWith g.path ".jsonl" = true →
        g.mtime ≤ f.mtime)
  ∧ checkCodexCompletion
      [some ⟨15, "event_msg", some ⟨"agent_message", some "done [ANS-1-ab]"⟩⟩]
      10 "RQ-1-ab" = true := by
  constructor
  · exact C3_codex_completion.1 [⟨"b.jsonl", 20⟩] 10
      ⟨⟨"b.jsonl", 20⟩, by decide, by decide, by decide⟩
  · exact (C3_codex_completion.2.2
      [some ⟨15, "event_msg", some ⟨"agent_message", some "done [ANS-1-ab]"⟩⟩]
      10 "RQ-1-ab").mpr
      ⟨⟨15, "event_msg", some ⟨"agent_message", some "done [ANS-1-ab]"⟩⟩,
        by decide, by decide, rfl, rfl, by decide⟩

theorem decDigitChar_ne_dash (d : ℕ) : decDigitChar d ≠ '-' := by
  unfold decDigitChar
  split_ifs <;> decide

theorem decDigitChar_inj {d₁ d₂ : ℕ} (h₁ : d₁ < 10) (h₂ : d₂ < 10)
    (h : decDigitChar d₁ = decDigitChar d₂) : d₁ = d₂ := by
  interval_cases d₁ <;> interval_cases d₂ <;> revert h <;> decide

theorem map_decDigitChar_inj :
    ∀ (l₁ l₂ : List ℕ), (∀ d ∈ l₁, d < 10) → (∀ d ∈ l₂, d < 10) →
      l₁.map decDigitChar = l₂.map decDigitChar → l₁ = l₂ := by
  intro l₁
  induction l₁ with
  | nil =>
    intro l₂ _ _ h
    cases l₂ with
    | nil => rfl
    | cons b t => simp at h
  | cons a t ih =>
    intro l₂ h₁ h₂ h
    cases l₂ with
    | nil => simp at h
    | cons b t' =>
      simp only [List.map_cons, List.cons.injEq] at h
      have hab : a = b :=
        decDigitChar_inj (h₁ a (List.mem_cons_self _ _))
          (h₂ b (List.mem_cons_self _ _)) h.1
      rw [hab, ih t' (fun d hd => h₁ d (List.mem_cons_of_mem _ hd))
        (fun d hd => h₂ d (List.mem_cons_of_mem _ hd)) h.2]

theorem natDecimal_ne_dash (n : ℕ) : '-' ∉ natDecimal n := by
  unfold natDecimal
  split_ifs with h
  · decide
  · intro hmem
    simp only [List.mem_map, List.mem_reverse] at hmem
    rcases hmem with ⟨d, _, hd⟩
    exact decDigitChar_ne_dash d hd

theorem natDecimal_singleton_zero {b : ℕ} (hb : b ≠ 0)
    (h : (['0'] : List Char) = natDecimal b) : False := by
  unfold natDecimal at h
  rw [if_neg hb] at h
  have hlen : (Nat.digits 10 b).length = 1 := by
    have := congrArg List.length h
    simpa using this.symm
  obtain ⟨d, hd⟩ := List.length_eq_one.mp hlen
  rw [hd] at h
  simp only [List.reverse_singleton, List.map_cons, List.map_nil,
    List.cons.injEq] at h
  have hd10 : d < 10 := Nat.digits_lt_base (by norm_num)
    (by rw [hd]; exact List.mem_singleton_self d)
  have hd0 : d = 0 := by
    have h0 : decDigitChar 0 = decDigitChar d := by
      simpa [decDigitChar] using h.1
    exact (decDigitChar_inj (show (0 : ℕ) < 10 by norm_num) hd10 h0).symm
  have hb0 : b = 0 := by
    have hov := (Nat.ofDigits_digits 10 b).symm
    rw [hd, hd0] at hov
    simpa [Nat.ofDigits] using hov
  exact hb hb0

theorem natDecimal_inj {a b : ℕ} (h : natDecimal a = natDecimal b) : a = b := by
  by_cases ha : a = 0 <;> by_cases hb : b = 0
  · omega
  · exfalso
    apply natDecimal_singleton_zero hb
    rw [← h]
    unfold natDecimal
    rw [if_pos ha]
  · exfalso
    apply natDecimal_singleton_zero ha
    rw [h]
    unfold natDecimal
    rw [if_pos hb]
  · unfold natDecimal at h
    rw [if_neg ha, if_neg hb] at h
    have hdig : Nat.digits 10 a = Nat.digits 10 b := by
      have := map_decDigitChar_inj (Nat.digits 10 a).reverse (Nat.digits 10 b).reverse
        (fun d hd => Nat.digits_lt_base (by norm_num) (List.mem_reverse.mp hd))
        (fun d hd => Nat.digits_lt_base (by norm_num) (List.mem_reverse.mp hd)) h
      exact List.reverse_injective this
    have := congrArg (Nat.ofDigits 10) hdig
    rwa [Nat.ofDigits_digits, Nat.ofDigits_digits] at this

theorem append_dash_inj :
    ∀ (a₁ : List Char) {b₁ : List Char} (a₂ : List Char) {b₂ : List Char},
      '-' ∉ a₁ → '-' ∉ a₂ →
      a₁ ++ '-' :: b₁ = a₂ ++ '-' :: b₂ → a₁ = a₂ ∧ b₁ = b₂ := by
  intro a₁
  induction a₁ with
  | nil =>
    intro b₁ a₂ b₂ _ h₂ h
    cases a₂ with
    | nil => simpa using h
    | cons c t =>
      simp only [List.nil_append, List.cons_append, List.cons.injEq] at h
      exact absurd (h.1 ▸ List.mem_cons_self c t) h₂
  | cons c t ih =>
    intro b₁ a₂ b₂ h₁ h₂ h
    cases a₂ with
    | nil =>
      simp only [List.nil_append, List.cons_append, List.cons.injEq] at h
      exact absurd (h.1 ▸ List.mem_cons_self c t) h₁
    | cons c' t' =>
      simp only [List.cons_append, List.cons.injEq] at h
      have := ih t' (fun hm => h₁ (List.mem_cons_of_mem _ hm))
        (fun hm => h₂ (List.mem_cons_of_mem _ hm)) h.2
      exact ⟨by rw [h.1, this.1], this.2⟩

/-- Claim C9, counterexample: under an environment where the millisecond
clock does not advance between invocations and the random suffix repeats,
two distinct invocations of the token generator return the same token — the
generator itself does not enforce uniqueness. -/
theorem C9_counterexample :
    tokenSeq (fun _ => 1706745600000) (fun _ => ['a', 'b', 'c', 'd']) 0 =
      tokenSeq (fun _ => 1706745600000) (fun _ => ['a', 'b', 'c', 'd']) 1 ∧
    (0 : ℕ) ≠ 1 := by
  exact ⟨rfl, by decide⟩

/-- Claim C9 (amended): two generated tokens are equal iff their clock value
and random suffix are both equal, so tokens are pairwise distinct whenever
the (timestamp, suffix) input pairs are pairwise distinct — in particular,
under a strictly increasing millisecond clock, the 100 tokens of 100
invocations are pairwise distinct. -/
theorem C9_request_id_uniqueness :
    (∀ (t₁ : ℕ) (s₁ : List Char) (t₂ : ℕ) (s₂ : List Char),
      generateRequestId t₁ s₁ = generateRequestId t₂ s₂ ↔ (t₁ = t₂ ∧ s₁ = s₂))
  ∧ (∀ (clock : ℕ → ℕ) (rand : ℕ → List Char),
      (∀ i j, i < j → clock i < clock j) →
      ∀ i j, i < 100 → j < 100 → i ≠ j →
        tokenSeq clock rand i ≠ tokenSeq clock rand j) := by
  have hinj : ∀ (t₁ : ℕ) (s₁ : List Char) (t₂ : ℕ) (s₂ : List Char),
      generateRequestId t₁ s₁ = generateRequestId t₂ s₂ ↔ (t₁ = t₂ ∧ s₁ = s₂) := by
    intro t₁ s₁ t₂ s₂
    constructor
    · intro h
      have hchars : requestIdChars t₁ s₁ = requestIdChars t₂ s₂ :=
        congrArg String.data h
      simp only [requestIdChars, List.cons.injEq, true_and] at hchars
      have := append_dash_inj (natDecimal t₁) (natDecimal t₂)
        (natDecimal_ne_dash t₁) (natDecimal_ne_dash t₂) hchars
      exact ⟨natDecimal_inj this.1, this.2⟩
    · rintro ⟨rfl, rfl⟩
      rfl
  refine ⟨hinj, fun clock rand hmono i j _ _ hne heq => ?_⟩
  have hclk := ((hinj _ _ _ _).mp heq).1
  rcases Nat.lt_or_ge i j with hij | hij
  · have := hmono i j hij
    omega
  · have hji : j < i := by omega
    have := hmono j i hji
    omega

/-- Witness for C9_request_id_uniqueness: tokens for clock values 1 and 2
differ, and under the identity clock invocations 0 and 99 produce different
tokens. -/
theorem C9_request_id_uniqueness_witness :
    generateRequestId 1 ['a'] ≠ generateRequestId 2 ['a'] ∧
    tokenSeq (fun i => i) (fun _ => []) 0 ≠ tokenSeq (fun i => i) (fun _ => []) 99 := by
  constructor
  · intro h
    have := (C9_request_id_uniqueness.1 1 ['a'] 2 ['a']).mp h
    omega
  · exact C9_request_id_uniqueness.2 (fun i => i) (fun _ => [])
      (fun i j h => h) 0 99 (by decide) (by decide) (by decide)

theorem isAbsolutePath_resolvePath (cwd p : String) :
    isAbsolutePath (resolvePath cwd p) = true := by
  have hdata : (resolvePath cwd p).toList =
      '/' :: (joinSlash (normSegsAux []
        (if isAbsolutePath p then pathSegs p else pathSegs cwd ++ pathSegs p))).toList := by
    simp [resolvePath, String.toList]
  rw [isAbsolutePath, hdata]
  rfl

/-- Claim C10, counterexample: a relative path is not rejected by
working-directory validation — it is resolved against the current working
directory and, when the resolved directory exists and is not denied,
accepted; the post-resolution absoluteness check can never fire because
`path.resolve` always returns an absolute path. -/
theorem C10_counterexample :
    validateWorkDir (fun p => p == "/home/user/project") "/home/user" "project" =
      .ok "/home/user/project" ∧
    isAbsolutePath "project" = false := by
  decide

/-- Claim C10 (amended): working-directory validation rejects any path with
a `..` segment before resolution, rejects nonexistent resolved paths, and
rejects exact matches of the fixed deny-list of OS-critical directories;
relative paths are not rejected but resolved against the current working
directory (the resolved path is always absolute) and then subjected to the
same checks; an existing, non-denied path is accepted and returned
resolved; `getProjectDir` falls back to the default sandbox directory on
any rejection and returns the resolved path on acceptance. -/
theorem C10_workdir_validation :
    (∀ (fs : String → Bool) (cwd w : String),
      (pathSegs w).contains ".." = true →
        validateWorkDir fs cwd w = .err "Path traversal detected")
  ∧ (∀ cwd p : String, isAbsolutePath (resolvePath cwd p) = true)
  ∧ (∀ (fs : String → Bool) (cwd w : String),
      (pathSegs w).contains ".." = false →
      fs (resolvePath cwd w) = false →
        validateWorkDir fs cwd w = .err "Directory does not exist")
  ∧ (∀ (fs : String → Bool) (cwd w : String),
      (pathSegs w).contains ".." = false →
      fs (resolvePath cwd w) = true →
      FORBIDDEN_PATHS.contains (resolvePath cwd w) = true →
        validateWorkDir fs cwd w = .err "Cannot use system directory")
  ∧ (∀ (fs : String → Bool) (cwd w : String),
      (pathSegs w).contains ".." = false →
      fs (resolvePath cwd w) = true →
      FORBIDDEN_PATHS.contains (resolvePath cwd w) = false →
        validateWorkDir fs cwd w = .ok (resolvePath cwd w))
  ∧ (∀ (fs : String → Bool) (cwd w reason : String),
      w ≠ "" →
      validateWorkDir (fun p => fs p || p == resolvePath cwd w) cwd w = .err reason →
        getProjectDir fs cwd (some w) = DEFAULT_PROJECT_DIR)
  ∧ (∀ (fs : String → Bool) (cwd w r : String),
      w ≠ "" →
      validateWorkDir (fun p => fs p || p == resolvePath cwd w) cwd w = .ok r →
        getProjectDir fs cwd (some w) = r)
  ∧ getProjectDir (fun _ => false) "/" none = DEFAULT_PROJECT_DIR := by
  refine ⟨fun fs cwd w h => ?_, isAbsolutePath_resolvePath,
    fun fs cwd w h1 h2 => ?_, fun fs cwd w h1 h2 h3 => ?_,
    fun fs cwd w h1 h2 h3 => ?_, fun fs cwd w reason hw hv => ?_,
    fun fs cwd w r hw hv => ?_, rfl⟩
  · have hmem : ".." ∈ pathSegs w := by simpa using h
    simp [validateWorkDir, hmem]
  · have hmem : ".." ∉ pathSegs w := by simpa using h1
    simp [validateWorkDir, hmem, h2, isAbsolutePath_resolvePath]
  · have hmem : ".." ∉ pathSegs w := by simpa using h1
    have hforb : resolvePath cwd w ∈ FORBIDDEN_PATHS := by simpa using h3
    simp [validateWorkDir, hmem, h2, hforb, isAbsolutePath_resolvePath]
  · have hmem : ".." ∉ pathSegs w := by simpa using h1
    have hforb : resolvePath cwd w ∉ FORBIDDEN_PATHS := by simpa using h3
    simp [validateWorkDir, hmem, h2, hforb, isAbsolutePath_resolvePath]
  · simp only [getProjectDir, if_neg hw, hv]
  · simp only [getProjectDir, if_neg hw, hv]

/-- Witness for C10_workdir_validation at concrete inputs: `/etc` (existing)
is rejected as a system directory, a path with a `..` segment is rejected
before resolution, an existing non-denied absolute path is accepted
resolved, and `getProjectDir` falls back to the default sandbox directory
for the rejected `/etc`. -/
theorem C10_workdir_validation_witness :
    validateWorkDir (fun p => p == "/etc") "/" "/etc" =
      .err "Cannot use system directory" ∧
    validateWorkDir (fun _ => true) "/" "/tmp/../../../etc" =
      .err "Path traversal detected" ∧
    validateWorkDir (fun p => p == "/srv/app") "/" "/srv/app" = .ok "/srv/app" ∧
    getProjectDir (fun p => p == "/etc") "/" (some "/etc") = DEFAULT_PROJECT_DIR := by
  refine ⟨?_, ?_, ?_, ?_⟩
  · exact C10_workdir_validation.2.2.2.1 (fun p => p == "/etc") "/" "/etc"
      (by decide) (by decide) (by decide)
  · exact C10_workdir_validation.1 (fun _ => true) "/" "/tmp/../../../etc" (by decide)
  · exact C10_workdir_validation.2.2.2.2.1 (fun p => p == "/srv/app") "/" "/srv/app"
      (by decide) (by decide) (by decide)
  · exact C10_workdir_validation.2.2.2.2.2.1 (fun p => p == "/etc") "/" "/etc"
      "Cannot use system directory" (by decide) (by decide)

/-- Claim C5: evaluated at the failing input — `debug` with one iteration on
a state with coding complete, where the analyzer's completion wait throws
(for example by adaptive timeout) — the debugging executor's exception path
clears `activeSessions` and resets `currentPhase` to none before
re-raising, but never stops the analyzer session it started: the started
analyzer session has no matching stop event. -/
theorem C5_debugging_leaks_session :
    executeDebugging ⟨fun _ => true, fun _ => false, fun _ => false⟩ 1
        { defaultState 0 with codingComplete := true } =
      ⟨[.started "analyzer" 1], [], none, true, false⟩ ∧
    (SessionEv.started "analyzer" 1 ∈
      (executeDebugging ⟨fun _ => true, fun _ => false, fun _ => false⟩ 1
        { defaultState 0 with codingComplete := true }).events) ∧
    (SessionEv.stopped "analyzer" 1 ∉
      (executeDebugging ⟨fun _ => true, fun _ => false, fun _ => false⟩ 1
        { defaultState 0 with codingComplete := true }).events) := by
  decide

/-- Claim C7: `loadState` never fails: it returns the project-scoped state
when that file parses and passes the structural type guard, otherwise the
global fallback state under the same rule, otherwise the documented default;
a file whose JSON is valid but fails the guard (missing or mistyped required
field) behaves exactly like a missing file, it is never raised as an error. -/
theorem C7_loadState_fallback_chain :
    ∀ (w : String) (proj glob : Option (Option JValue)) (now : ℤ), w ≠ "" →
      (∀ v, proj = some (some v) → isValidState v = true →
        loadState (some w) proj glob now = overrideWorkDir (castState v) w)
    ∧ (∀ v, proj = some (some v) → isValidState v = false →
        loadState (some w) proj glob now = loadState (some w) none glob now)
    ∧ (loadState (some w) (some none) glob now = loadState (some w) none glob now)
    ∧ (∀ v, glob = some (some v) → isValidState v = true →
        loadState (some w) none glob now = overrideWorkDir (castState v) DEFAULT_PROJECT_DIR)
    ∧ (∀ v, glob = some (some v) → isValidState v = false →
        loadState (some w) none glob now = defaultState now)
    ∧ (loadState (some w) none none now = defaultState now)
    ∧ (loadState (some w) none (some none) now = defaultState now) := by
  intro w proj glob now hw
  refine ⟨fun v hp hv => loadState_project_valid w proj glob now v hw hp hv,
    fun v hp hv => ?_, ?_, fun v hg hv => ?_, fun v hg hv => ?_, ?_, ?_⟩ <;>
    simp_all [loadState, validRead, strArgTruthy]

/-- Witness for C7_loadState_fallback_chain: a state file with valid JSON but
a missing required field (only `task` present) fails validation and load
falls back to the default state instead of failing. -/
theorem C7_loadState_witness :
    loadState (some "/p") (some (some (.obj [("task", JValue.str "x")]))) none 3 =
      defaultState 3 := by
  have h := C7_loadState_fallback_chain "/p"
    (some (some (.obj [("task", JValue.str "x")]))) none 3 (by decide)
  rw [h.2.1 (.obj [("task", JValue.str "x")]) rfl (by decide)]
  exact (C7_loadState_fallback_chain "/p" none none 3 (by decide)).2.2.2.2.2.1

/-- Claim C8, counterexample: for the valid pipeline state whose `workDir` is
the empty string, save-then-load changes `workDir` to the default project
directory (so the round trip does not preserve all fields except
`lastUpdate`); moreover two successive saves on the same millisecond clock
produce equal `lastUpdate` stamps, so the stamp does not strictly increase. -/
theorem C8_counterexample :
    (isValidState (stateToJson ⟨none, "", "", 0, false, none, false, false,
        false, false, [], 0⟩) = true)
  ∧ ((loadState
        (some (saveState ⟨none, "", "", 0, false, none, false, false,
          false, false, [], 0⟩ 5).state.workDir)
        none
        (some (some (saveState ⟨none, "", "", 0, false, none, false, false,
          false, false, [], 0⟩ 5).globalWrite)) 9).workDir = DEFAULT_PROJECT_DIR)
  ∧ (PipelineState.workDir ⟨none, "", "", 0, false, none, false, false,
        false, false, [], 0⟩ = "" ∧ DEFAULT_PROJECT_DIR ≠ "")
  ∧ ((saveState (saveState ⟨none, "", "", 0, false, none, false, false,
        false, false, [], 0⟩ 5).state 5).state.lastUpdate =
      (saveState ⟨none, "", "", 0, false, none, false, false,
        false, false, [], 0⟩ 5).state.lastUpdate) := by
  refine ⟨by decide, ?_, by decide, rfl⟩
  decide

/-- Claim C8 (amended): for every valid `PipelineState` with a non-empty
`workDir`, `saveState` writes the identical serialized state to both the
project-scoped and the global fallback location, and a subsequent
`loadState` returns the saved state, which agrees with the input state on
every field except `lastUpdate`; across successive saves the `lastUpdate`
stamp strictly increases whenever the millisecond clock does. -/
theorem C8_save_load_roundtrip (st : PipelineState) (now now1 now2 later : ℤ)
    (glob : Option (Option JValue)) (hw : st.workDir ≠ "") :
    ((saveState st now).projectWrite = (saveState st now).globalWrite)
  ∧ (loadState (some st.workDir) (some (some (saveState st now).projectWrite)) glob later
      = (saveState st now).state)
  ∧ ((saveState st now).state = { st with lastUpdate := now })
  ∧ (now1 < now2 →
      (saveState st now1).state.lastUpdate <
        (saveState (saveState st now1).state now2).state.lastUpdate) := by
  refine ⟨rfl, ?_, rfl, fun h => by simpa [saveState] using h⟩
  have hload := loadState_project_valid st.workDir
    (some (some (saveState st now).projectWrite)) glob later
    (saveState st now).projectWrite hw rfl (isValidState_stateToJson _)
  rw [hload]
  show overrideWorkDir (castState (stateToJson { st with lastUpdate := now })) st.workDir = _
  rw [castState_stateToJson]
  simp [overrideWorkDir, saveState, hw]

/-- Witness for C8_save_load_roundtrip at the default state (non-empty
workDir) and clock values 1 < 2. -/
theorem C8_save_load_roundtrip_witness :
    loadState (some (defaultState 0).workDir)
        (some (some (saveState (defaultState 0) 5).projectWrite)) none 9
      = { defaultState 0 with lastUpdate := 5 } ∧
    (saveState (defaultState 0) 1).state.lastUpdate <
      (saveState (saveState (defaultState 0) 1).state 2).state.lastUpdate := by
  have h := C8_save_load_roundtrip (defaultState 0) 5 1 2 9 none (by decide)
  exact ⟨h.2.1.trans h.2.2.1, h.2.2.2 (by decide)⟩

end Gumploop
